import Mathlib

/-!
Verification development for a room-based WebSocket chat relay server
(Express + ws + Redis pub/sub).  The definitions below are a shallow
embedding of the server's source: the message-handling pipeline
(rate limit, JSON parse, schema validation, lazy room join, message
construction, history persistence, publish), the bounded history store
built on Redis lPush/lTrim/lRange, the relay subscriber fan-out, and the
on-connection behaviour.  External collaborators (the JSON codec, Redis)
are modelled at their interface: a frame's JSON.parse result is an
`Option Json`, a stored history entry is either a well-formed serialized
message or corrupt text, and the Redis list/counter primitives become
pure list/Nat operations.
-/

namespace ChatApp

/-- Server configuration (environment variables PORT etc. aside, the four
fields the core logic reads; defaults as in the source). -/
structure Config where
  defaultRoom : String
  rateLimitPerMin : Nat
  historySize : Nat
  historyTtlSeconds : Nat
deriving DecidableEq

/-- The default configuration values from the source
(`DEFAULT_ROOM = "lobby"`, `RATE_LIMIT_PER_MIN = 20`, `HISTORY_SIZE = 50`,
`HISTORY_TTL_SECONDS = 604800`). -/
def defCfg : Config := ⟨"lobby", 20, 50, 604800⟩

/-- `ChatMessage` record from types.ts. -/
structure ChatMessage where
  id : String
  room : String
  text : String
  username : String
  ts : Nat
deriving DecidableEq

/-- The payload of a client frame accepted by `ClientMessageSchema`
(the `type` tag is checked and discarded by destructuring in the source). -/
structure ClientMessage where
  room : String
  text : String
  username : String
deriving DecidableEq

/-- `ServerEvent` from types.ts: the three outbound event shapes. -/
inductive ServerEvent where
  | history (room : String) (messages : List ChatMessage)
  | broadcast (message : ChatMessage)
  | system (text : String)
deriving DecidableEq

/-- Per-connection state: `ClientInfo` minus the raw socket handle
(`rooms` is the room-membership set, kept as a duplicate-free list; `ip`
is the rate-limit source address). -/
structure ClientInfo where
  rooms : List String
  ip : String
deriving DecidableEq

/-- Channel namespace `CHANNEL_PREFIX` = "chat:". -/
def chanPref : String := "chat:"

/-- History key namespace `HISTORY_PREFIX` = "history:". -/
def histPref : String := "history:"

/-- Rate key namespace `RATE_PREFIX` = "rate:". -/
def ratePref : String := "rate:"

/-- `channelFor(room)` from the source. -/
def channelFor (room : String) : String := chanPref ++ room

/-- `historyKey(room)` from the source. -/
def historyKey (room : String) : String := histPref ++ room

/-- `rateKey(ip)` from the source: the key embeds the current one-minute
wall-clock bucket `Math.floor(Date.now() / 60000)`. -/
def rateKeyOf (ip : String) (nowMs : Nat) : String :=
  ratePref ++ ip ++ ":" ++ toString (nowMs / 60000)

/-- A small model of JavaScript JSON values, as produced by `JSON.parse`. -/
inductive Json where
  | jnull
  | jbool (b : Bool)
  | jnum (n : Int)
  | jstr (s : String)
  | jarr (xs : List Json)
  | jobj (fields : List (String × Json))

/-- Object field lookup (first binding wins), used to model zod's reading
of the four schema fields; unknown extra keys are ignored, as zod does. -/
def Json.getField : Json → String → Option Json
  | .jobj fs, k => fs.lookup k
  | _, _ => none

/-- Require a JSON string value. -/
def asStr : Option Json → Option String
  | some (.jstr s) => some s
  | _ => none

/-- The validation kernel of `ClientMessageSchema` from types.ts:
`type` must be the literal "message", `room` a string of length ≥ 1,
`text` a string of length 1..2000, `username` a string of length 1..40.
Note the length checks are on the raw strings: trimming happens later,
in the handler. -/
def clientMessageOf (ty room text username : String) : Option ClientMessage :=
  if ty = "message" ∧ 1 ≤ room.length ∧
      1 ≤ text.length ∧ text.length ≤ 2000 ∧
      1 ≤ username.length ∧ username.length ≤ 40
  then some ⟨room, text, username⟩ else none

/-- `ClientMessageSchema.safeParse` over the JSON model: all four fields
must be present as strings and pass the bounds of `clientMessageOf`. -/
def safeParse (j : Json) : Option ClientMessage :=
  match asStr (Json.getField j "type"), asStr (Json.getField j "room"),
      asStr (Json.getField j "text"), asStr (Json.getField j "username") with
  | some ty, some room, some text, some username =>
      clientMessageOf ty room text username
  | _, _, _, _ => none

/-- ECMAScript whitespace recognizer used by `String.prototype.trim`
(WhiteSpace plus LineTerminator code points). -/
def isJsWs (c : Char) : Bool :=
  c == ' ' || c == '\t' || c == '\n' || c == '\r' ||
  c.toNat == 0x0B || c.toNat == 0x0C || c.toNat == 0xA0 ||
  c.toNat == 0x1680 || (0x2000 ≤ c.toNat && c.toNat ≤ 0x200A) ||
  c.toNat == 0x2028 || c.toNat == 0x2029 || c.toNat == 0x202F ||
  c.toNat == 0x205F || c.toNat == 0x3000 || c.toNat == 0xFEFF

/-- List-level body of `.trim()`: drop whitespace from the front, then
from the back. -/
def jsTrimList (l : List Char) : List Char :=
  ((l.dropWhile isJsWs).reverse.dropWhile isJsWs).reverse

/-- JavaScript `String.prototype.trim`, as used at `text.trim()` and
`username.trim()` in the handler. -/
def jsTrim (s : String) : String := ⟨jsTrimList s.data⟩

/-- A stored history-list entry: either the serialization of a
`ChatMessage` (which `JSON.parse` recovers exactly) or corrupt text on
which `JSON.parse` throws. -/
inductive HistEntry where
  | ok (m : ChatMessage)
  | corrupt (raw : String)
deriving DecidableEq

/-- `JSON.parse` on one stored entry. -/
def parseEntry : HistEntry → Option ChatMessage
  | .ok m => some m
  | .corrupt _ => none

/-- `raw.map((s) => JSON.parse(s))` with JavaScript exception semantics:
the first entry whose parse throws makes the whole expression throw
(`none`); otherwise all parsed messages are returned. -/
def parseAll : List HistEntry → Option (List ChatMessage)
  | [] => some []
  | e :: es =>
      match parseEntry e, parseAll es with
      | some m, some ms => some (m :: ms)
      | _, _ => none

/-- `loadHistory(room)` from the source, over the room's stored list
(newest first, as Redis lPush leaves it): `lRange key 0 (HISTORY_SIZE-1)`
takes the first `cap` entries, each is `JSON.parse`d, and the result is
reversed into chronological order.  `cap` is the configured
`HISTORY_SIZE` (assumed positive, as any real configuration is). -/
def loadHistory (cap : Nat) (l : List HistEntry) : Option (List ChatMessage) :=
  (parseAll (l.take cap)).map List.reverse

/-- `pushHistory(room, msg)` from the source, on the stored list:
`lPush` prepends the serialized message, `lTrim key 0 (HISTORY_SIZE-1)`
keeps the first `cap` entries.  (The `expire` TTL refresh has no effect
on the list's contents and is not modelled here.) -/
def pushHistory (cap : Nat) (l : List HistEntry) (m : ChatMessage) : List HistEntry :=
  (HistEntry.ok m :: l).take cap

/-- Append a whole sequence of messages in order via `pushHistory`. -/
def pushMany (cap : Nat) (msgs : List ChatMessage) (l : List HistEntry) : List HistEntry :=
  msgs.foldl (pushHistory cap) l

/-- Observable side effects of the connection handlers.  `send` is a
`ws.send` to the connection being handled; `pushHist` a `pushHistory`
call; `publish` a `pub.publish`; `rateExpire` the 60-second TTL set on a
rate-counter key; `close` would be a forced socket close (the source
never performs one, which the effect vocabulary lets us state). -/
inductive Effect where
  | send (ev : ServerEvent)
  | pushHist (room : String) (msg : ChatMessage)
  | publish (channel : String) (msg : ChatMessage)
  | rateExpire (seconds : Nat)
  | close
deriving DecidableEq

/-- The `ws.send` events among a list of effects. -/
def sends (effs : List Effect) : List ServerEvent :=
  effs.filterMap fun e =>
    match e with
    | .send ev => some ev
    | _ => none

/-- The history appends among a list of effects. -/
def pushes (effs : List Effect) : List (String × ChatMessage) :=
  effs.filterMap fun e =>
    match e with
    | .pushHist r m => some (r, m)
    | _ => none

/-- The bus publishes among a list of effects. -/
def publishes (effs : List Effect) : List (String × ChatMessage) :=
  effs.filterMap fun e =>
    match e with
    | .publish c m => some (c, m)
    | _ => none

/-- Text of the rate-limit system notice. -/
def rateNotice : String := "Rate limit exceeded. Try again soon."

/-- Text of the JSON parse-failure system notice. -/
def badJsonNotice : String := "Invalid JSON"

/-- Text of the schema-failure system notice. -/
def badShapeNotice : String := "Invalid message shape"

/-- Result of processing one inbound frame: the rate counter's value
after `pub.incr`, the (possibly updated) session state, and the emitted
effects in order. -/
structure HandlerOut where
  count : Nat
  info : ClientInfo
  effects : List Effect
deriving DecidableEq

/-- The `ws.on("message")` handler.  Inputs: the session state, the rate
counter's value for this address's current minute bucket before this
frame (`count0`; Redis `incr` returns `count0 + 1`), the frame's
`JSON.parse` outcome (`none` = parse throws), and the two
server-generated values `randomUUID()` and `Date.now()`.  Mirrors the
source line by line: increment and optional TTL set, rate check, JSON
check, schema check, lazy room join, message construction with trimmed
fields, history push, publish. -/
def handleMessage (cfg : Config) (info : ClientInfo) (count0 : Nat)
    (frame : Option Json) (freshId : String) (now : Nat) : HandlerOut :=
  let count := count0 + 1
  let pre := if count = 1 then [Effect.rateExpire 60] else []
  if count > cfg.rateLimitPerMin then
    ⟨count, info, pre ++ [Effect.send (.system rateNotice)]⟩
  else
    match frame with
    | none => ⟨count, info, pre ++ [Effect.send (.system badJsonNotice)]⟩
    | some payload =>
        match safeParse payload with
        | none => ⟨count, info, pre ++ [Effect.send (.system badShapeNotice)]⟩
        | some cm =>
            let rooms' := if cm.room ∈ info.rooms then info.rooms
              else info.rooms ++ [cm.room]
            let msg : ChatMessage :=
              ⟨freshId, cm.room, jsTrim cm.text, jsTrim cm.username, now⟩
            ⟨count, ⟨rooms', info.ip⟩,
              pre ++ [Effect.pushHist cm.room msg,
                Effect.publish (channelFor cm.room) msg]⟩

/-- Socket ready states of the ws library. -/
inductive ReadyState where
  | CONNECTING
  | OPEN
  | CLOSING
  | CLOSED
deriving DecidableEq

/-- One entry of `wss.clients` as seen by the relay: a connection handle,
its `clients.get(socket)` lookup result (`none` when the WeakMap holds no
entry for it), and its `readyState`. -/
structure Conn where
  cid : Nat
  clientInfo : Option ClientInfo
  readyState : ReadyState
deriving DecidableEq

/-- The delivery condition of the relay's fan-out loop: skip sockets with
no `ClientInfo`; deliver when the room set contains the room and the
socket is OPEN. -/
def deliverTo (room : String) (c : Conn) : Bool :=
  match c.clientInfo with
  | none => false
  | some i => decide (room ∈ i.rooms) && decide (c.readyState = ReadyState.OPEN)

/-- The `sub.pSubscribe("chat:*", ...)` callback.  Inputs: the local
connections (`wss.clients`), the channel name, and the payload's
`JSON.parse` outcome (`none` = parse throws).  The room is the channel
name with `CHANNEL_PREFIX` stripped.  The source wraps the parse in no
try/catch, so a parse failure is an exception escaping the callback,
modelled as `Except.error`; on success the result lists, in order, the
connections that receive the broadcast event. -/
def relayHandle (conns : List Conn) (ch : String) (parsed : Option ChatMessage) :
    Except Unit (List (Nat × ServerEvent)) :=
  let room := ch.drop chanPref.length
  match parsed with
  | none => .error ()
  | some m =>
      .ok (conns.filterMap fun c =>
        if deliverTo room c then some (c.cid, ServerEvent.broadcast m) else none)

/-- The system welcome notice sent after the history snapshot. -/
def welcomeText (room : String) : String :=
  "Connected. Joined room \"" ++ room ++ "\"."

/-- The `wss.on("connection")` handler: create the session already a
member of the default room, load the default room's history, send it as
one `history` event, then send the welcome `system` notice.  `defHist`
is the default room's stored list; if `loadHistory` throws (corrupt
entry) the handler aborts (`none`). -/
def onConnection (cfg : Config) (ip : String) (defHist : List HistEntry) :
    Option (ClientInfo × List Effect) :=
  let info : ClientInfo := ⟨[cfg.defaultRoom], ip⟩
  match loadHistory cfg.historySize defHist with
  | none => none
  | some msgs =>
      some (info, [Effect.send (.history cfg.defaultRoom msgs),
        Effect.send (.system (welcomeText cfg.defaultRoom))])

/-- One inbound frame for a session run: the frame's parse outcome and
the server-generated id and timestamp at its processing. -/
structure FrameIn where
  frame : Option Json
  fid : String
  now : Nat

/-- Initial session state: member of exactly the default room. -/
def initInfo (cfg : Config) (ip : String) : ClientInfo := ⟨[cfg.defaultRoom], ip⟩

/-- Thread the session state and the rate counter through one frame. -/
def sessionStep (cfg : Config) (st : ClientInfo × Nat) (f : FrameIn) :
    ClientInfo × Nat :=
  let out := handleMessage cfg st.1 st.2 f.frame f.fid f.now
  (out.info, out.count)

/-- Process a sequence of frames (all within one rate bucket) from a
fresh session. -/
def runSession (cfg : Config) (ip : String) (fs : List FrameIn) : ClientInfo × Nat :=
  fs.foldl (sessionStep cfg) (initInfo cfg ip, 0)

/-! ### Helper lemmas -/

theorem length_dropWhile_le (p : Char → Bool) (l : List Char) :
    (l.dropWhile p).length ≤ l.length := by
  induction l with
  | nil => simp
  | cons a l ih =>
      by_cases h : p a
      · simp only [List.dropWhile_cons, h, if_pos]
        exact Nat.le_trans ih (Nat.le_succ _)
      · simp [List.dropWhile_cons, h]

theorem jsTrim_length_le (s : String) : (jsTrim s).length ≤ s.length := by
  show (jsTrimList s.data).length ≤ s.data.length
  unfold jsTrimList
  calc ((s.data.dropWhile isJsWs).reverse.dropWhile isJsWs).reverse.length
      = ((s.data.dropWhile isJsWs).reverse.dropWhile isJsWs).length := by
        simp
    _ ≤ (s.data.dropWhile isJsWs).reverse.length := length_dropWhile_le _ _
    _ = (s.data.dropWhile isJsWs).length := by simp
    _ ≤ s.data.length := length_dropWhile_le _ _

theorem take_append_take {α : Type} (cap : Nat) (A B : List α) :
    (A ++ B.take cap).take cap = (A ++ B).take cap := by
  simp only [List.take_append_eq_append_take]
  congr 1
  rw [List.take_take]
  congr 1
  omega

theorem pushMany_eq (cap : Nat) (msgs : List ChatMessage) (l : List HistEntry)
    (hl : l.length ≤ cap) :
    pushMany cap msgs l = ((msgs.reverse.map HistEntry.ok) ++ l).take cap := by
  induction msgs generalizing l with
  | nil => simpa [pushMany] using (List.take_of_length_le hl).symm
  | cons m ms ih =>
      show pushMany cap ms (pushHistory cap l m) = _
      rw [ih (pushHistory cap l m) (by simp [pushHistory])]
      simp only [pushHistory]
      rw [take_append_take]
      simp [List.append_assoc]

theorem parseAll_ok (l : List ChatMessage) :
    parseAll (l.map HistEntry.ok) = some l := by
  induction l with
  | nil => rfl
  | cons m ms ih => simp [parseAll, parseEntry, ih]

theorem parseAll_length (l : List HistEntry) (r : List ChatMessage)
    (h : parseAll l = some r) : r.length = l.length := by
  induction l generalizing r with
  | nil => simp [parseAll] at h; simp [← h]
  | cons e es ih =>
      simp only [parseAll] at h
      cases he : parseEntry e with
      | none => rw [he] at h; exact absurd h (by simp)
      | some m =>
          rw [he] at h
          cases hes : parseAll es with
          | none => rw [hes] at h; exact absurd h (by simp)
          | some ms =>
              rw [hes] at h
              obtain rfl : m :: ms = r := by simpa using h
              simp [ih ms hes]

theorem loadHistory_pushMany (cap : Nat) (msgs : List ChatMessage) :
    loadHistory cap (pushMany cap msgs []) =
      some (msgs.drop (msgs.length - cap)) := by
  rw [loadHistory, pushMany_eq cap msgs [] (by simp)]
  rw [List.append_nil, List.take_take, Nat.min_self, ← List.map_take, parseAll_ok]
  have : (msgs.reverse.take cap).reverse = msgs.drop (msgs.length - cap) := by
    rw [List.reverse_take, List.reverse_reverse, List.length_reverse]
  simp [Option.map, this]

theorem loadHistory_le (cap : Nat) (l : List HistEntry) (ms : List ChatMessage)
    (h : loadHistory cap l = some ms) : ms.length ≤ cap := by
  unfold loadHistory at h
  cases hp : parseAll (l.take cap) with
  | none => rw [hp] at h; exact absurd h (by simp)
  | some r =>
      rw [hp] at h
      obtain rfl : r.reverse = ms := by simpa using h
      have := parseAll_length _ _ hp
      simp only [List.length_reverse, this]
      exact List.length_take_le cap l

theorem handle_count (cfg : Config) (info : ClientInfo) (count0 : Nat)
    (frame : Option Json) (fid : String) (now : Nat) :
    (handleMessage cfg info count0 frame fid now).count = count0 + 1 := by
  simp only [handleMessage]
  split
  · rfl
  · cases frame with
    | none => rfl
    | some p => cases hp : safeParse p <;> simp only [hp]

theorem handle_rejected (cfg : Config) (info : ClientInfo) (count0 : Nat)
    (frame : Option Json) (fid : String) (now : Nat)
    (h : cfg.rateLimitPerMin < count0 + 1) :
    handleMessage cfg info count0 frame fid now =
      ⟨count0 + 1, info,
        (if count0 + 1 = 1 then [Effect.rateExpire 60] else []) ++
          [Effect.send (.system rateNotice)]⟩ := by
  simp only [handleMessage]
  rw [if_pos h]

theorem handle_badjson (cfg : Config) (info : ClientInfo) (count0 : Nat)
    (fid : String) (now : Nat) (h : count0 + 1 ≤ cfg.rateLimitPerMin) :
    handleMessage cfg info count0 none fid now =
      ⟨count0 + 1, info,
        (if count0 + 1 = 1 then [Effect.rateExpire 60] else []) ++
          [Effect.send (.system badJsonNotice)]⟩ := by
  simp only [handleMessage]
  rw [if_neg (by omega)]

theorem handle_badshape (cfg : Config) (info : ClientInfo) (count0 : Nat)
    (p : Json) (fid : String) (now : Nat)
    (h : count0 + 1 ≤ cfg.rateLimitPerMin) (hp : safeParse p = none) :
    handleMessage cfg info count0 (some p) fid now =
      ⟨count0 + 1, info,
        (if count0 + 1 = 1 then [Effect.rateExpire 60] else []) ++
          [Effect.send (.system badShapeNotice)]⟩ := by
  simp only [handleMessage, hp]
  rw [if_neg (by omega)]

theorem handle_accepted (cfg : Config) (info : ClientInfo) (count0 : Nat)
    (p : Json) (cm : ClientMessage) (fid : String) (now : Nat)
    (h : count0 + 1 ≤ cfg.rateLimitPerMin) (hp : safeParse p = some cm) :
    handleMessage cfg info count0 (some p) fid now =
      ⟨count0 + 1,
        ⟨if cm.room ∈ info.rooms then info.rooms else info.rooms ++ [cm.room],
          info.ip⟩,
        (if count0 + 1 = 1 then [Effect.rateExpire 60] else []) ++
          [Effect.pushHist cm.room
              ⟨fid, cm.room, jsTrim cm.text, jsTrim cm.username, now⟩,
            Effect.publish (channelFor cm.room)
              ⟨fid, cm.room, jsTrim cm.text, jsTrim cm.username, now⟩]⟩ := by
  simp only [handleMessage, hp]
  rw [if_neg (by omega)]

theorem sends_pre (c : Prop) [Decidable c] (l : List Effect) :
    sends ((if c then [Effect.rateExpire 60] else []) ++ l) = sends l := by
  split <;> simp [sends]

theorem pushes_pre (c : Prop) [Decidable c] (l : List Effect) :
    pushes ((if c then [Effect.rateExpire 60] else []) ++ l) = pushes l := by
  split <;> simp [pushes]

theorem publishes_pre (c : Prop) [Decidable c] (l : List Effect) :
    publishes ((if c then [Effect.rateExpire 60] else []) ++ l) = publishes l := by
  split <;> simp [publishes]

theorem close_not_mem_pre (c : Prop) [Decidable c] (l : List Effect)
    (hl : Effect.close ∉ l) :
    Effect.close ∉ (if c then [Effect.rateExpire 60] else []) ++ l := by
  split <;> simp_all

theorem safeParse_bounds (j : Json) (cm : ClientMessage)
    (h : safeParse j = some cm) :
    1 ≤ cm.room.length ∧ 1 ≤ cm.text.length ∧ cm.text.length ≤ 2000 ∧
      1 ≤ cm.username.length ∧ cm.username.length ≤ 40 := by
  unfold safeParse at h
  split at h
  next ty room text username _ _ _ _ =>
    unfold clientMessageOf at h
    split at h
    next hc =>
      obtain rfl : (⟨room, text, username⟩ : ClientMessage) = cm := by
        simpa using h
      exact ⟨hc.2.1, hc.2.2.1, hc.2.2.2.1, hc.2.2.2.2.1, hc.2.2.2.2.2⟩
    next => exact absurd h (by simp)
  next => exact absurd h (by simp)

theorem handle_rooms_mono (cfg : Config) (info : ClientInfo) (count0 : Nat)
    (frame : Option Json) (fid : String) (now : Nat) :
    info.rooms ⊆ (handleMessage cfg info count0 frame fid now).info.rooms := by
  simp only [handleMessage]
  split
  · exact fun _ h => h
  · cases frame with
    | none => exact fun _ h => h
    | some p =>
        cases hp : safeParse p with
        | none => simp only [hp]; exact fun _ h => h
        | some cm =>
            simp only [hp]
            split
            · exact fun _ h => h
            · exact List.subset_append_left _ _

theorem run_rooms_mono (cfg : Config) (st : ClientInfo × Nat) (fs : List FrameIn) :
    st.1.rooms ⊆ (fs.foldl (sessionStep cfg) st).1.rooms := by
  induction fs generalizing st with
  | nil => exact fun _ h => h
  | cons f fs ih =>
      intro a ha
      exact ih (sessionStep cfg st f)
        (handle_rooms_mono cfg st.1 st.2 f.frame f.fid f.now ha)

theorem run_count (cfg : Config) (st : ClientInfo × Nat) (fs : List FrameIn) :
    (fs.foldl (sessionStep cfg) st).2 = st.2 + fs.length := by
  induction fs generalizing st with
  | nil => simp
  | cons f fs ih =>
      rw [List.foldl_cons, ih]
      have hc : (sessionStep cfg st f).2 = st.2 + 1 :=
        handle_count cfg st.1 st.2 f.frame f.fid f.now
      rw [hc]
      simp
      omega

theorem admitted_no_rate_notice (cfg : Config) (info : ClientInfo) (count0 : Nat)
    (frame : Option Json) (fid : String) (now : Nat)
    (h : count0 + 1 ≤ cfg.rateLimitPerMin) :
    ServerEvent.system rateNotice ∉
      sends (handleMessage cfg info count0 frame fid now).effects := by
  cases frame with
  | none =>
      rw [handle_badjson cfg info count0 fid now h, sends_pre]
      simp only [sends, List.filterMap_cons, List.filterMap_nil]
      simp [rateNotice, badJsonNotice]
  | some p =>
      cases hp : safeParse p with
      | none =>
          rw [handle_badshape cfg info count0 p fid now h hp, sends_pre]
          simp only [sends, List.filterMap_cons, List.filterMap_nil]
          simp [rateNotice, badShapeNotice]
      | some cm =>
          rw [handle_accepted cfg info count0 p cm fid now h hp, sends_pre]
          simp [sends]

theorem notice_only (t : String) (c : Prop) [Decidable c] :
    sends ((if c then [Effect.rateExpire 60] else []) ++
        [Effect.send (.system t)]) = [ServerEvent.system t] ∧
    pushes ((if c then [Effect.rateExpire 60] else []) ++
        [Effect.send (.system t)]) = [] ∧
    publishes ((if c then [Effect.rateExpire 60] else []) ++
        [Effect.send (.system t)]) = [] ∧
    Effect.close ∉ (if c then [Effect.rateExpire 60] else []) ++
        [Effect.send (.system t)] :=
  ⟨by rw [sends_pre]; simp [sends], by rw [pushes_pre]; simp [pushes],
    by rw [publishes_pre]; simp [publishes],
    close_not_mem_pre c _ (by simp)⟩

/-! ### Claim theorems -/

/-- C1: for every source address and minute bucket with limit L, each of
the first L frames is admitted (the counter value after the frame is at
most L and no rate-limit notice is sent), the (L+1)-th frame in the same
bucket is rejected with the rate-limit system notice and no history
append, no publish and no session change, and the first frame of a fresh
bucket (counter starting at 0) is admitted with counter value 1. -/
theorem rate_limit_window (cfg : Config) (info : ClientInfo)
    (frame : Option Json) (fid : String) (now : Nat)
    (hL : 1 ≤ cfg.rateLimitPerMin) :
    (∀ k, k < cfg.rateLimitPerMin →
        (handleMessage cfg info k frame fid now).count = k + 1 ∧
        (handleMessage cfg info k frame fid now).count ≤ cfg.rateLimitPerMin ∧
        ServerEvent.system rateNotice ∉
          sends (handleMessage cfg info k frame fid now).effects) ∧
    (sends (handleMessage cfg info cfg.rateLimitPerMin frame fid now).effects =
        [ServerEvent.system rateNotice] ∧
      pushes (handleMessage cfg info cfg.rateLimitPerMin frame fid now).effects = [] ∧
      publishes (handleMessage cfg info cfg.rateLimitPerMin frame fid now).effects = [] ∧
      (handleMessage cfg info cfg.rateLimitPerMin frame fid now).info = info) ∧
    ((handleMessage cfg info 0 frame fid now).count = 1 ∧
      ServerEvent.system rateNotice ∉
        sends (handleMessage cfg info 0 frame fid now).effects) := by
  refine ⟨fun k hk => ⟨handle_count cfg info k frame fid now, ?_, ?_⟩, ?_, ?_, ?_⟩
  · rw [handle_count cfg info k frame fid now]; omega
  · exact admitted_no_rate_notice cfg info k frame fid now (by omega)
  · rw [handle_rejected cfg info cfg.rateLimitPerMin frame fid now (by omega)]
    exact ⟨(notice_only rateNotice _).1,
      (notice_only rateNotice _).2.1, (notice_only rateNotice _).2.2.1, rfl⟩
  · rw [handle_count cfg info 0 frame fid now]
  · exact admitted_no_rate_notice cfg info 0 frame fid now (by omega)

/-- Witness for C1: with the default configuration (limit 20), the first
frame of a fresh bucket gets counter value 1 and no rate-limit notice. -/
theorem rate_limit_window_witness :
    (handleMessage defCfg ⟨["lobby"], "1.2.3.4"⟩ 0 none "u1" 5).count = 1 ∧
    ServerEvent.system rateNotice ∉
      sends (handleMessage defCfg ⟨["lobby"], "1.2.3.4"⟩ 0 none "u1" 5).effects :=
  (rate_limit_window defCfg ⟨["lobby"], "1.2.3.4"⟩ none "u1" 5 (by decide)).2.2

/-- C2: `loadHistory` returns the empty sequence for an empty stored
list, never more than the configured cap, and after K messages have been
appended with K greater than the cap it returns exactly the cap most
recently appended messages, in chronological (append) order. -/
theorem history_bounded_chrono (cap : Nat) :
    loadHistory cap [] = some [] ∧
    (∀ l ms, loadHistory cap l = some ms → ms.length ≤ cap) ∧
    (∀ msgs : List ChatMessage, cap < msgs.length →
        loadHistory cap (pushMany cap msgs []) =
          some (msgs.drop (msgs.length - cap)) ∧
        (msgs.drop (msgs.length - cap)).length = cap) := by
  refine ⟨by simp [loadHistory, parseAll],
    fun l ms h => loadHistory_le cap l ms h,
    fun msgs hK => ⟨loadHistory_pushMany cap msgs, ?_⟩⟩
  rw [List.length_drop]
  omega

/-- Witness for C2: with cap 2, appending three messages leaves exactly
the last two, oldest first. -/
theorem history_bounded_chrono_witness :
    loadHistory 2 (pushMany 2
        [⟨"a", "r", "t", "u", 1⟩, ⟨"b", "r", "t", "u", 2⟩,
          ⟨"c", "r", "t", "u", 3⟩] []) =
      some [⟨"b", "r", "t", "u", 2⟩, ⟨"c", "r", "t", "u", 3⟩] := by
  have h := ((history_bounded_chrono 2).2.2
    [⟨"a", "r", "t", "u", 1⟩, ⟨"b", "r", "t", "u", 2⟩, ⟨"c", "r", "t", "u", 3⟩]
    (by decide)).1
  simpa using h

/-- A frame that passes `ClientMessageSchema` although its text is a
single space: the schema checks lengths before trimming. -/
def wsFrame : Json :=
  Json.jobj [("type", Json.jstr "message"), ("room", Json.jstr "r"),
    ("text", Json.jstr " "), ("username", Json.jstr "u")]

/-- Counterexample to C3 as stated: the whitespace-only text " " passes
schema validation, and the constructed ChatMessage's text is the empty
string — its length 0 is not between 1 and 2000. -/
theorem trim_empty_counterexample :
    (safeParse wsFrame).isSome = true ∧
    pushes (handleMessage defCfg ⟨["lobby"], "a"⟩ 0 (some wsFrame) "id1" 7).effects =
      [("r", ⟨"id1", "r", "", "u", 7⟩)] ∧
    ¬ 1 ≤ (jsTrim " ").length := by decide

/-- C3 as amended: for every frame that passes schema validation, the
constructed ChatMessage has text equal to the frame's text stripped of
leading/trailing whitespace with resulting length at most 2000 (the
length can be 0 when the text was all whitespace), username stripped
likewise with resulting length at most 40, id equal to the non-empty
server-generated uuid, and the server-assigned timestamp. -/
theorem trimmed_message_fields (cfg : Config) (info : ClientInfo) (count0 : Nat)
    (p : Json) (cm : ClientMessage) (fid : String) (now : Nat)
    (hc : count0 + 1 ≤ cfg.rateLimitPerMin) (hp : safeParse p = some cm)
    (hid : fid ≠ "") :
    ∃ m : ChatMessage,
      pushes (handleMessage cfg info count0 (some p) fid now).effects =
        [(cm.room, m)] ∧
      publishes (handleMessage cfg info count0 (some p) fid now).effects =
        [(channelFor cm.room, m)] ∧
      m.text = jsTrim cm.text ∧ m.text.length ≤ 2000 ∧
      m.username = jsTrim cm.username ∧ m.username.length ≤ 40 ∧
      m.id = fid ∧ m.id ≠ "" ∧ m.ts = now := by
  refine ⟨⟨fid, cm.room, jsTrim cm.text, jsTrim cm.username, now⟩,
    ?_, ?_, rfl, ?_, rfl, ?_, rfl, hid, rfl⟩
  · rw [handle_accepted cfg info count0 p cm fid now hc hp, pushes_pre]
    simp [pushes]
  · rw [handle_accepted cfg info count0 p cm fid now hc hp, publishes_pre]
    simp [publishes]
  · exact Nat.le_trans (jsTrim_length_le cm.text) (safeParse_bounds p cm hp).2.2.1
  · exact Nat.le_trans (jsTrim_length_le cm.username)
      (safeParse_bounds p cm hp).2.2.2.2

/-- Witness for the amended C3, at the whitespace frame. -/
theorem trimmed_message_fields_witness :
    ∃ m : ChatMessage,
      pushes (handleMessage defCfg ⟨["lobby"], "a"⟩ 0 (some wsFrame) "id1" 7).effects =
        [("r", m)] ∧
      publishes (handleMessage defCfg ⟨["lobby"], "a"⟩ 0 (some wsFrame) "id1" 7).effects =
        [(channelFor "r", m)] ∧
      m.text = jsTrim " " ∧ m.text.length ≤ 2000 ∧
      m.username = jsTrim "u" ∧ m.username.length ≤ 40 ∧
      m.id = "id1" ∧ m.id ≠ "" ∧ m.ts = 7 :=
  trimmed_message_fields defCfg ⟨["lobby"], "a"⟩ 0 wsFrame ⟨"r", " ", "u"⟩
    "id1" 7 (by decide) (by decide) (by decide)

/-- C4: a bus message on a channel with the "chat:" prefix is delivered
as a broadcast event to exactly the locally held connections whose rooms
set contains the room stripped from the channel name and whose socket is
OPEN; every other local connection receives nothing. -/
theorem relay_fanout (conns : List Conn) (m : ChatMessage) (ch : String) :
    relayHandle conns ch (some m) =
      .ok ((conns.filter (deliverTo (ch.drop chanPref.length))).map
        fun c => (c.cid, ServerEvent.broadcast m)) ∧
    ∀ c : Conn, deliverTo (ch.drop chanPref.length) c = true ↔
      (∃ i, c.clientInfo = some i ∧ ch.drop chanPref.length ∈ i.rooms) ∧
        c.readyState = ReadyState.OPEN := by
  constructor
  · simp only [relayHandle]
    congr 1
    induction conns with
    | nil => rfl
    | cons a l ih =>
        by_cases h : deliverTo (ch.drop chanPref.length) a <;>
          simp [List.filterMap_cons, List.filter_cons, h, ih]
  · intro c
    cases hc : c.clientInfo with
    | none => simp [deliverTo, hc]
    | some i => simp [deliverTo, hc, and_comm]

/-- C5: every frame rejected by the rate check, JSON parsing or schema
validation produces exactly one send — a system notice to the offending
connection — no history append, no publish, no close, and leaves the
session state unchanged. -/
theorem reject_local_only (cfg : Config) (info : ClientInfo) (count0 : Nat)
    (frame : Option Json) (fid : String) (now : Nat)
    (h : cfg.rateLimitPerMin < count0 + 1 ∨ frame = none ∨
      ∃ p, frame = some p ∧ safeParse p = none) :
    (∃ t, sends (handleMessage cfg info count0 frame fid now).effects =
        [ServerEvent.system t]) ∧
    pushes (handleMessage cfg info count0 frame fid now).effects = [] ∧
    publishes (handleMessage cfg info count0 frame fid now).effects = [] ∧
    Effect.close ∉ (handleMessage cfg info count0 frame fid now).effects ∧
    (handleMessage cfg info count0 frame fid now).info = info := by
  by_cases hrate : cfg.rateLimitPerMin < count0 + 1
  · rw [handle_rejected cfg info count0 frame fid now hrate]
    exact ⟨⟨rateNotice, (notice_only rateNotice _).1⟩,
      (notice_only rateNotice _).2.1, (notice_only rateNotice _).2.2.1,
      (notice_only rateNotice _).2.2.2, rfl⟩
  · have hc : count0 + 1 ≤ cfg.rateLimitPerMin := by omega
    rcases h with h | rfl | ⟨p, rfl, hp⟩
    · omega
    · rw [handle_badjson cfg info count0 fid now hc]
      exact ⟨⟨badJsonNotice, (notice_only badJsonNotice _).1⟩,
        (notice_only badJsonNotice _).2.1, (notice_only badJsonNotice _).2.2.1,
        (notice_only badJsonNotice _).2.2.2, rfl⟩
    · rw [handle_badshape cfg info count0 p fid now hc hp]
      exact ⟨⟨badShapeNotice, (notice_only badShapeNotice _).1⟩,
        (notice_only badShapeNotice _).2.1, (notice_only badShapeNotice _).2.2.1,
        (notice_only badShapeNotice _).2.2.2, rfl⟩

/-- Witness for C5: a frame whose JSON parse fails. -/
theorem reject_local_only_witness :
    (∃ t, sends (handleMessage defCfg ⟨["lobby"], "a"⟩ 0 none "u" 3).effects =
        [ServerEvent.system t]) ∧
    pushes (handleMessage defCfg ⟨["lobby"], "a"⟩ 0 none "u" 3).effects = [] ∧
    publishes (handleMessage defCfg ⟨["lobby"], "a"⟩ 0 none "u" 3).effects = [] ∧
    Effect.close ∉ (handleMessage defCfg ⟨["lobby"], "a"⟩ 0 none "u" 3).effects ∧
    (handleMessage defCfg ⟨["lobby"], "a"⟩ 0 none "u" 3).info = ⟨["lobby"], "a"⟩ :=
  reject_local_only defCfg ⟨["lobby"], "a"⟩ 0 none "u" 3 (Or.inr (Or.inl rfl))

/-- C6 evaluation: the relay subscriber callback wraps `JSON.parse` in no
try/catch, so an undecodable payload makes the callback throw
(`Except.error`) instead of dropping the message and fanning out. -/
theorem relay_decode_throws :
    relayHandle [⟨0, some ⟨["lobby"], "a"⟩, ReadyState.OPEN⟩] "chat:lobby" none =
      Except.error () ∧
    relayHandle [⟨0, some ⟨["lobby"], "a"⟩, ReadyState.OPEN⟩] "chat:lobby"
        (some ⟨"i", "lobby", "hi", "u", 1⟩) =
      Except.ok [(0, ServerEvent.broadcast ⟨"i", "lobby", "hi", "u", 1⟩)] :=
  ⟨rfl, rfl⟩

/-- C7 evaluation: `loadHistory` maps `JSON.parse` over the stored
entries with no per-entry recovery, so one corrupt entry fails the whole
load (`none`) instead of being skipped. -/
theorem corrupt_history_fails :
    loadHistory 50 [HistEntry.ok ⟨"i", "lobby", "t", "u", 0⟩,
        HistEntry.corrupt "x"] = none ∧
    loadHistory 50 [HistEntry.ok ⟨"i", "lobby", "t", "u", 0⟩,
        HistEntry.corrupt "x"] ≠ some [⟨"i", "lobby", "t", "u", 0⟩] := by
  decide

/-- C8: a new connection's session starts as a member of exactly the
default room, and the connection is sent exactly one history event for
the default room — containing at most the configured cap of messages, in
chronological order — followed (strictly after) by the system welcome
notice naming the default room. -/
theorem on_connect_sequence (cfg : Config) (ip : String) (msgs : List ChatMessage) :
    onConnection cfg ip (pushMany cfg.historySize msgs []) =
      some (⟨[cfg.defaultRoom], ip⟩,
        [Effect.send (ServerEvent.history cfg.defaultRoom
            (msgs.drop (msgs.length - cfg.historySize))),
          Effect.send (ServerEvent.system (welcomeText cfg.defaultRoom))]) ∧
    (msgs.drop (msgs.length - cfg.historySize)).length ≤ cfg.historySize ∧
    (∀ defHist info2 effs, onConnection cfg ip defHist = some (info2, effs) →
        info2 = ⟨[cfg.defaultRoom], ip⟩ ∧
        ∃ ms, effs = [Effect.send (ServerEvent.history cfg.defaultRoom ms),
            Effect.send (ServerEvent.system (welcomeText cfg.defaultRoom))] ∧
          ms.length ≤ cfg.historySize) := by
  refine ⟨?_, ?_, ?_⟩
  · simp only [onConnection, loadHistory_pushMany]
  · rw [List.length_drop]; omega
  · intro defHist info2 effs h
    simp only [onConnection] at h
    cases hl : loadHistory cfg.historySize defHist with
    | none => rw [hl] at h; exact absurd h (by simp)
    | some ms =>
        rw [hl] at h
        simp only [Option.some.injEq, Prod.mk.injEq] at h
        exact ⟨h.1.symm, ms, h.2.symm, loadHistory_le _ _ _ hl⟩

/-- Witness for C8, at an empty stored history. -/
theorem on_connect_sequence_witness :
    (⟨["lobby"], "b"⟩ : ClientInfo) = ⟨[defCfg.defaultRoom], "b"⟩ ∧
    ∃ ms, [Effect.send (ServerEvent.history "lobby" ([] : List ChatMessage)),
        Effect.send (ServerEvent.system (welcomeText "lobby"))] =
        [Effect.send (ServerEvent.history defCfg.defaultRoom ms),
          Effect.send (ServerEvent.system (welcomeText defCfg.defaultRoom))] ∧
      ms.length ≤ defCfg.historySize :=
  (on_connect_sequence defCfg "b" []).2.2 []
    ⟨["lobby"], "b"⟩
    [Effect.send (ServerEvent.history "lobby" ([] : List ChatMessage)),
      Effect.send (ServerEvent.system (welcomeText "lobby"))]
    (by decide)

/-- C9: a session's rooms set starts as exactly the default room, always
contains the default room, and only grows: any room present after some
frames is still present after any further frames. -/
theorem rooms_monotone (cfg : Config) (ip : String) (fs fs2 : List FrameIn) :
    runSession cfg ip [] = (⟨[cfg.defaultRoom], ip⟩, 0) ∧
    cfg.defaultRoom ∈ (runSession cfg ip fs).1.rooms ∧
    (∀ r, r ∈ (runSession cfg ip fs).1.rooms →
        r ∈ (runSession cfg ip (fs ++ fs2)).1.rooms) := by
  refine ⟨rfl, ?_, ?_⟩
  · exact run_rooms_mono cfg (initInfo cfg ip, 0) fs (by simp [initInfo])
  · intro r hr
    show r ∈ ((fs ++ fs2).foldl (sessionStep cfg) (initInfo cfg ip, 0)).1.rooms
    rw [List.foldl_append]
    exact run_rooms_mono cfg _ fs2 hr

/-- Witness for C9: the default room survives an empty extension. -/
theorem rooms_monotone_witness :
    "lobby" ∈ (runSession defCfg "a" ([] ++ [])).1.rooms :=
  (rooms_monotone defCfg "a" [] []).2.2 "lobby" (by decide)

/-- C10: the per-address rate counter is incremented before any parsing
or validation — the counter after any frame, valid or not, is the
previous value plus one — and once the counter has reached the limit,
every further frame in the bucket (valid or not) is answered only with
the rate-limit notice; over a run, the counter equals the number of
frames received. -/
theorem rate_counted_before_validation (cfg : Config) (ip fid : String) (now : Nat) :
    (∀ (info : ClientInfo) (frame : Option Json) (count0 : Nat),
        (handleMessage cfg info count0 frame fid now).count = count0 + 1) ∧
    (∀ (info : ClientInfo) (frame : Option Json) (j : Nat),
        sends (handleMessage cfg info (cfg.rateLimitPerMin + j) frame fid now).effects =
          [ServerEvent.system rateNotice] ∧
        pushes (handleMessage cfg info (cfg.rateLimitPerMin + j) frame fid now).effects = [] ∧
        publishes (handleMessage cfg info (cfg.rateLimitPerMin + j) frame fid now).effects = []) ∧
    (∀ fs : List FrameIn, (runSession cfg ip fs).2 = fs.length) := by
  refine ⟨fun info frame count0 => handle_count cfg info count0 frame fid now,
    fun info frame j => ?_, fun fs => ?_⟩
  · rw [handle_rejected cfg info (cfg.rateLimitPerMin + j) frame fid now (by omega)]
    exact ⟨(notice_only rateNotice _).1, (notice_only rateNotice _).2.1,
      (notice_only rateNotice _).2.2.1⟩
  · rw [runSession, run_count]
    simp

end ChatApp
